import Mathlib

/-!
# lilradio firmware: a shallow embedding of `firmware/src/main.cpp`

The firmware is one flat event loop over a handful of global variables.  The
embedding keeps every global as a field of `Globals`, turns each handler into a
function `Globals → … → Globals`, and passes what the hardware supplies
(button snapshots, `millis()` readings, the tuner's answers) as explicit
arguments.

Machine arithmetic.  The target is an ESP32 (`Preferences.h`), where `int` and
`long` are 32-bit two's-complement and `unsigned long` is 32-bit.  Signed
results go through `wrapInt`, unsigned ones are taken modulo `2^32`.

Time.  A `clock` argument is the uptime in milliseconds as a natural number;
`millis clock` is what the call `millis()` returns at that instant.

Calls into the tuner driver and `delay` are recorded, in order, in
`Globals.trace`; calls of `putInt` are recorded there too, besides changing the
flash contents.  The `draw…` functions read the globals and write only to the
canvas, so they do not appear in the state.
-/

namespace LilRadio

/-! ## Constants -/

def MIN_FREQUENCY : Int := 8750
def MAX_FREQUENCY : Int := 10800
def MIN_VOLUME : Int := 1
def MAX_VOLUME : Int := 15
def GET_RADIO_INFO_INTERVAL : Nat := 2000
def SAVE_SETTINGS_DELAY : Nat := 3000

/-! ## Machine integers -/

/-- Value of a 32-bit signed (`int`, `long`) result: two's-complement wrap-around. -/
def wrapInt (x : Int) : Int := (x + 2147483648) % 4294967296 - 2147483648

/-- Sum of two `unsigned long` values. -/
def ulongAdd (a b : Nat) : Nat := (a + b) % 4294967296

/-- Difference `a - b` of two `unsigned long` values. -/
def ulongSub (a b : Nat) : Nat := (a % 4294967296 + 4294967296 - b % 4294967296) % 4294967296

/-- Modelled from the spec: `millis()` belongs to the Arduino core, not to src/.
It returns the uptime in milliseconds as an `unsigned long`. -/
def millis (clock : Nat) : Nat := clock % 4294967296

/-- Modelled from the spec: the Arduino core function `map` is not under src/.
Its reference definition is
`(x - in_min) * (out_max - out_min) / (in_max - in_min) + out_min`
on `long` operands, with C's division (truncation toward zero). -/
def map (x in_min in_max out_min out_max : Int) : Int :=
  wrapInt (Int.tdiv (wrapInt (wrapInt (x - in_min) * wrapInt (out_max - out_min)))
    (wrapInt (in_max - in_min)) + out_min)

/-- Modelled from the spec: the Arduino core macro `constrain(amt, low, high)`,
`((amt)<(low)?(low):((amt)>(high)?(high):(amt)))`. -/
def constrain (amt low high : Int) : Int :=
  if amt < low then low else if amt > high then high else amt

/-! ## External collaborators -/

/-- Calls the firmware makes to the tuner driver, to `delay` and to the
settings store's `putInt`, in the order they are made. -/
inductive Effect where
  | setBandFrequency (f : Int)
  | setFrequency (f : Int)
  | setVolume (v : Int)
  | setMono (b : Bool)
  | setMute (m : Bool)
  | seekUp
  | seekDown
  | delay (ms : Nat)
  | getFrequency
  | getRadioInfo
  | putInt (key : String) (value : Int)
  deriving DecidableEq

/-- Modelled from the spec: the settings store (`Preferences`) is an external
key-value store with a begin/get/put/end lifecycle, scoped by a namespace.
`flash` is what survives a restart. -/
structure Preferences where
  flash : List ((String × String) × Int)
  started : Bool
  name : String
  readOnly : Bool
  deriving DecidableEq

namespace Preferences

/-- Modelled from the spec: `Preferences::begin(name, readOnly)` opens the namespace. -/
def begin (p : Preferences) (name : String) (readOnly : Bool) : Preferences :=
  { p with started := true, name := name, readOnly := readOnly }

/-- Modelled from the spec: `Preferences::getInt(key, defaultValue)` returns the
stored integer, or `defaultValue` when the key is absent. -/
def getInt (p : Preferences) (key : String) (defaultValue : Int) : Int :=
  if p.started then (p.flash.lookup (p.name, key)).getD defaultValue else defaultValue

/-- Modelled from the spec: `Preferences::putInt(key, value)` stores the integer
under the key, replacing an older entry. -/
def putInt (p : Preferences) (key : String) (value : Int) : Preferences :=
  if p.started && !p.readOnly then
    { p with flash := ((p.name, key), value) :: p.flash.filter (fun e => e.1 != (p.name, key)) }
  else p

/-- Modelled from the spec: `Preferences::end()` closes the namespace. -/
def finish (p : Preferences) : Preferences :=
  { p with started := false }

end Preferences

namespace lilka

/-- Modelled from the spec: `lilka::ButtonState`, the per-button edge/level
snapshot of the input poller.  The firmware reads only `justPressed`. -/
structure ButtonState where
  pressed : Bool
  justPressed : Bool
  justReleased : Bool
  deriving DecidableEq

/-- Modelled from the spec: `lilka::State`, the snapshot of the seven buttons
the loop reads. -/
structure State where
  left : ButtonState
  right : ButtonState
  up : ButtonState
  down : ButtonState
  select : ButtonState
  a : ButtonState
  d : ButtonState
  deriving DecidableEq

end lilka

/-! ## Program state -/

/-- The global variables of `main.cpp`, the settings store and the call trace. -/
structure Globals where
  lastSettingsChangeTime : Nat
  pendingSave : Bool
  nextGetRadioInfoTime : Nat
  frequency : Int
  volume : Int
  signalStrength : Int
  isMute : Bool
  settings : Preferences
  trace : List Effect
  deriving DecidableEq

/-- The globals as their initialisers set them, over the given flash contents. -/
def boot (flash : List ((String × String) × Int)) : Globals :=
  { lastSettingsChangeTime := 0
    pendingSave := false
    nextGetRadioInfoTime := 0
    frequency := 10000
    volume := 1
    signalStrength := 0
    isMute := false
    settings := { flash := flash, started := false, name := "", readOnly := false }
    trace := [] }

/-! ## The functions of `main.cpp` -/

def convertRssiToSignalStrength (rssi : Int) : Int :=
  let range := map rssi 0 45 0 5
  constrain range 0 5

def handleLeftButton (g : Globals) (button : lilka.ButtonState) (clock : Nat) : Globals :=
  if button.justPressed then
    let frequency := wrapInt (g.frequency - 10)
    let frequency := if frequency < MIN_FREQUENCY then MIN_FREQUENCY else frequency
    let trace := g.trace ++ [Effect.setFrequency frequency]
    let trace := if g.isMute then trace ++ [Effect.setMute g.isMute] else trace
    { g with
      frequency := frequency
      trace := trace
      lastSettingsChangeTime := millis clock
      pendingSave := true }
  else g

def handleRightButton (g : Globals) (button : lilka.ButtonState) (clock : Nat) : Globals :=
  if button.justPressed then
    let frequency := wrapInt (g.frequency + 10)
    let frequency := if frequency > MAX_FREQUENCY then MAX_FREQUENCY else frequency
    let trace := g.trace ++ [Effect.setFrequency frequency]
    let trace := if g.isMute then trace ++ [Effect.setMute g.isMute] else trace
    { g with
      frequency := frequency
      trace := trace
      lastSettingsChangeTime := millis clock
      pendingSave := true }
  else g

def handleUpButton (g : Globals) (button : lilka.ButtonState) (clock : Nat) : Globals :=
  if button.justPressed && !g.isMute then
    let volume := wrapInt (g.volume + 1)
    let volume := if volume > MAX_VOLUME then MAX_VOLUME else volume
    { g with
      volume := volume
      trace := g.trace ++ [Effect.setVolume volume]
      lastSettingsChangeTime := millis clock
      pendingSave := true }
  else g

def handleDownButton (g : Globals) (button : lilka.ButtonState) (clock : Nat) : Globals :=
  if button.justPressed && !g.isMute then
    let volume := wrapInt (g.volume - 1)
    let volume := if volume < MIN_VOLUME then MIN_VOLUME else volume
    { g with
      volume := volume
      trace := g.trace ++ [Effect.setVolume volume]
      lastSettingsChangeTime := millis clock
      pendingSave := true }
  else g

def handleSelectButton (g : Globals) (button : lilka.ButtonState) : Globals :=
  if button.justPressed then
    { g with
      isMute := !g.isMute
      trace := g.trace ++ [Effect.setMute (!g.isMute)] }
  else g

/-- `tuned` is what `radio.getFrequency()` answers after the seek. -/
def handleAButton (g : Globals) (button : lilka.ButtonState) (tuned : Int) (clock : Nat) :
    Globals :=
  if button.justPressed then
    { g with
      frequency := tuned
      trace := g.trace ++ [Effect.seekUp, Effect.delay 250, Effect.getFrequency]
      lastSettingsChangeTime := millis clock
      pendingSave := true }
  else g

/-- `tuned` is what `radio.getFrequency()` answers after the seek. -/
def handleDButton (g : Globals) (button : lilka.ButtonState) (tuned : Int) (clock : Nat) :
    Globals :=
  if button.justPressed then
    { g with
      frequency := tuned
      trace := g.trace ++ [Effect.seekDown, Effect.delay 250, Effect.getFrequency]
      lastSettingsChangeTime := millis clock
      pendingSave := true }
  else g

/-- `rssi` is the field `info.rssi` the driver fills in. -/
def handleGetRadioInfo (g : Globals) (clock : Nat) (rssi : Int) : Globals :=
  let now := millis clock
  if now > g.nextGetRadioInfoTime then
    { g with
      trace := g.trace ++ [Effect.getRadioInfo]
      signalStrength := convertRssiToSignalStrength rssi
      nextGetRadioInfoTime := ulongAdd now GET_RADIO_INFO_INTERVAL }
  else g

def loadSettings (g : Globals) : Globals :=
  let settings := g.settings.begin "lilradio" true
  let frequency := settings.getInt "frequency" g.frequency
  let volume := settings.getInt "volume" g.volume
  { g with frequency := frequency, volume := volume, settings := settings.finish }

def saveSettings (g : Globals) : Globals :=
  let settings := g.settings.begin "lilradio" false
  let settings := settings.putInt "frequency" g.frequency
  let settings := settings.putInt "volume" g.volume
  { g with
    settings := settings.finish
    trace := g.trace ++ [Effect.putInt "frequency" g.frequency, Effect.putInt "volume" g.volume] }

/-- The driver calls of `initRadioModule` that pass a global: band and
frequency, volume, mono, mute.  The bus and de-emphasis set-up before them
reads no global. -/
def initRadioModule (g : Globals) : Globals :=
  { g with
    trace := g.trace ++ [Effect.setBandFrequency g.frequency, Effect.setVolume g.volume,
      Effect.setMono false, Effect.setMute g.isMute] }

/-- `setup()`: `lilka::begin()` and `setupButtons()` configure the hardware and
write no global, so the state changes are those of `loadSettings` and
`initRadioModule`. -/
def setup (g : Globals) : Globals :=
  initRadioModule (loadSettings g)

/-- What one iteration of `loop()` receives from the hardware: the button
snapshot, the uptime at each place the iteration may call `millis()`, the
signal quality the driver would report, and the frequency it would report
after a seek up (`tunedA`) or down (`tunedD`). -/
structure LoopInput where
  state : lilka.State
  tInfo : Nat
  tLeft : Nat
  tRight : Nat
  tUp : Nat
  tDown : Nat
  tA : Nat
  tD : Nat
  tSave : Nat
  rssi : Int
  tunedA : Int
  tunedD : Int
  deriving DecidableEq

/-- The seven handler calls of `loop()` that follow `handleGetRadioInfo`. -/
def handleButtons (g : Globals) (i : LoopInput) : Globals :=
  let g := handleLeftButton g i.state.left i.tLeft
  let g := handleRightButton g i.state.right i.tRight
  let g := handleUpButton g i.state.up i.tUp
  let g := handleDownButton g i.state.down i.tDown
  let g := handleSelectButton g i.state.select
  let g := handleAButton g i.state.a i.tunedA i.tA
  handleDButton g i.state.d i.tunedD i.tD

/-- The commit test of `loop()`:
`pendingSave && (millis() - lastSettingsChangeTime > SAVE_SETTINGS_DELAY)`. -/
def saveDue (g : Globals) (clock : Nat) : Bool :=
  g.pendingSave && decide (ulongSub (millis clock) g.lastSettingsChangeTime > SAVE_SETTINGS_DELAY)

def loop (g : Globals) (i : LoopInput) : Globals :=
  let g := handleButtons (handleGetRadioInfo g i.tInfo i.rssi) i
  if saveDue g i.tSave then
    { saveSettings g with pendingSave := false }
  else g

/-- Successive iterations of `loop()`. -/
def run (g : Globals) (inputs : List LoopInput) : Globals :=
  inputs.foldl loop g

/-! ## Vocabulary of the properties -/

/-- A tune event: the button it is delivered to (`up = true` is the right
button, `up = false` the left one), the button state and the uptime. -/
structure TuneEvent where
  up : Bool
  button : lilka.ButtonState
  clock : Nat
  deriving DecidableEq

/-- Delivery of a tune event to its handler. -/
def tune (g : Globals) (e : TuneEvent) : Globals :=
  if e.up then handleRightButton g e.button e.clock else handleLeftButton g e.button e.clock

/-- A volume event: the button it is delivered to (`up = true` is the up
button, `up = false` the down one), the button state and the uptime. -/
structure VolumeEvent where
  up : Bool
  button : lilka.ButtonState
  clock : Nat
  deriving DecidableEq

/-- Delivery of a volume event to its handler. -/
def adjust (g : Globals) (e : VolumeEvent) : Globals :=
  if e.up then handleUpButton g e.button e.clock else handleDownButton g e.button e.clock

def FrequencyInRange (g : Globals) : Prop :=
  MIN_FREQUENCY ≤ g.frequency ∧ g.frequency ≤ MAX_FREQUENCY

def VolumeInRange (g : Globals) : Prop :=
  MIN_VOLUME ≤ g.volume ∧ g.volume ≤ MAX_VOLUME

def InRange (g : Globals) : Prop :=
  FrequencyInRange g ∧ VolumeInRange g

instance (g : Globals) : Decidable (FrequencyInRange g) := by
  unfold FrequencyInRange; infer_instance

instance (g : Globals) : Decidable (VolumeInRange g) := by
  unfold VolumeInRange; infer_instance

instance (g : Globals) : Decidable (InRange g) := by
  unfold InRange; infer_instance

/-- The tuner reports an in-band frequency for each seek the iteration performs. -/
def SeekInBand (i : LoopInput) : Prop :=
  (i.state.a.justPressed = true → MIN_FREQUENCY ≤ i.tunedA ∧ i.tunedA ≤ MAX_FREQUENCY) ∧
  (i.state.d.justPressed = true → MIN_FREQUENCY ≤ i.tunedD ∧ i.tunedD ≤ MAX_FREQUENCY)

instance (i : LoopInput) : Decidable (SeekInBand i) := by
  unfold SeekInBand; infer_instance

/-- A button that is not touched. -/
def released : lilka.ButtonState :=
  { pressed := false, justPressed := false, justReleased := false }

/-- A button on the transition into pressed. -/
def pressedEdge : lilka.ButtonState :=
  { pressed := true, justPressed := true, justReleased := false }

/-- The snapshot with no button touched. -/
def idleState : lilka.State :=
  { left := released, right := released, up := released, down := released,
    select := released, a := released, d := released }

/-- An iteration in which every `millis()` call reads the same uptime `t`. -/
def inputAt (state : lilka.State) (t : Nat) (rssi : Int) (tuned : Int) : LoopInput :=
  { state := state, tInfo := t, tLeft := t, tRight := t, tUp := t, tDown := t, tA := t,
    tD := t, tSave := t, rssi := rssi, tunedA := tuned, tunedD := tuned }

/-- The in-memory state of the spec's round-trip example: frequency 9760, volume 7. -/
def tuned9760 : Globals :=
  { boot [] with frequency := 9760, volume := 7 }

/-- The spec's formula for the signal strength, `round(raw * 5 / 45)` clamped
to [0, 5], over the rationals. -/
def specSignalStrength (raw : Int) : Int :=
  max 0 (min 5 (round ((raw * 5 : ℚ) / 45)))

/-- Uptimes at which the handlers of an iteration with input `i`, entered in
state `g`, stamp `lastSettingsChangeTime`, in call order: one for each
qualifying edit (a `justPressed` left, right, A or D, or a `justPressed`
up/down while not muted). -/
def stamps (g : Globals) (i : LoopInput) : List Nat :=
  (if i.state.left.justPressed then [i.tLeft] else []) ++
  (if i.state.right.justPressed then [i.tRight] else []) ++
  (if i.state.up.justPressed && !g.isMute then [i.tUp] else []) ++
  (if i.state.down.justPressed && !g.isMute then [i.tDown] else []) ++
  (if i.state.a.justPressed then [i.tA] else []) ++
  (if i.state.d.justPressed then [i.tD] else [])

/-- Uptime of the last stamp of the iteration (`0` when it has no edit). -/
def lastStamp (g : Globals) (i : LoopInput) : Nat := (stamps g i).getLastD 0

/-- The stamps of a run of iterations, in order. -/
def editStamps : Globals → List LoopInput → List Nat
  | _, [] => []
  | g, i :: rest => stamps g i ++ editStamps (loop g i) rest

/-- The uptimes an iteration may read, in call order. -/
def clocks (i : LoopInput) : List Nat :=
  [i.tInfo, i.tLeft, i.tRight, i.tUp, i.tDown, i.tA, i.tD, i.tSave]

def allClocks : List LoopInput → List Nat
  | [] => []
  | i :: rest => clocks i ++ allClocks rest

/-- The `putInt` calls recorded in a trace, in order. -/
def putCalls (trace : List Effect) : List (String × Int) :=
  trace.filterMap fun e =>
    match e with
    | Effect.putInt key value => some (key, value)
    | _ => none
/-- What a stretch of handler calls that stamps at the uptimes `ss` does to the
fields the commit test and `saveSettings` read. -/
def Stamped (g g' : Globals) (ss : List Nat) : Prop :=
  putCalls g'.trace = putCalls g.trace ∧ g'.settings = g.settings ∧
  (ss = [] → g'.pendingSave = g.pendingSave ∧
    g'.lastSettingsChangeTime = g.lastSettingsChangeTime ∧
    g'.frequency = g.frequency ∧ g'.volume = g.volume) ∧
  (ss ≠ [] → g'.pendingSave = true ∧ g'.lastSettingsChangeTime = millis (ss.getLastD 0))

/-! ## Machine arithmetic -/

theorem wrapInt_eq (x : Int) (h1 : -2147483648 ≤ x) (h2 : x < 2147483648) : wrapInt x = x := by
  unfold wrapInt; omega

/-! ## Tuning and volume steps -/

theorem tune_step (g : Globals) (e : TuneEvent) (hr : FrequencyInRange g)
    (hp : e.button.justPressed = true) :
    FrequencyInRange (tune g e) ∧
    (e.up = false → (tune g e).frequency =
      if g.frequency - 10 < 8750 then 8750 else g.frequency - 10) ∧
    (e.up = true → (tune g e).frequency =
      if g.frequency + 10 > 10800 then 10800 else g.frequency + 10) := by
  obtain ⟨h1, h2⟩ := hr
  simp only [MIN_FREQUENCY, MAX_FREQUENCY] at h1 h2
  have hd : wrapInt (g.frequency - 10) = g.frequency - 10 := wrapInt_eq _ (by omega) (by omega)
  have hu : wrapInt (g.frequency + 10) = g.frequency + 10 := wrapInt_eq _ (by omega) (by omega)
  cases hup : e.up
  · simp only [tune, hup, handleLeftButton, hp, FrequencyInRange, hd, MIN_FREQUENCY, MAX_FREQUENCY]
    simp
    split_ifs <;> omega
  · simp only [tune, hup, handleRightButton, hp, FrequencyInRange, hu, MIN_FREQUENCY, MAX_FREQUENCY]
    simp
    split_ifs <;> omega

theorem tune_run_inRange (evs : List TuneEvent) : ∀ (g : Globals), FrequencyInRange g →
    (∀ x ∈ evs, x.button.justPressed = true) → FrequencyInRange (evs.foldl tune g) := by
  induction evs with
  | nil => intro g hr _; exact hr
  | cons e rest ih =>
    intro g hr hp
    simp only [List.foldl_cons]
    exact ih _ (tune_step g e hr (hp e (List.mem_cons_self _ _))).1
      (fun x hx => hp x (List.mem_cons_of_mem _ hx))

theorem adjust_step (g : Globals) (e : VolumeEvent) (hr : VolumeInRange g)
    (hm : g.isMute = false) (hp : e.button.justPressed = true) :
    VolumeInRange (adjust g e) ∧ (adjust g e).isMute = false ∧
    (e.up = true → (adjust g e).volume = min (g.volume + 1) 15) ∧
    (e.up = false → (adjust g e).volume = max (g.volume - 1) 1) := by
  obtain ⟨h1, h2⟩ := hr
  simp only [MIN_VOLUME, MAX_VOLUME] at h1 h2
  have hd : wrapInt (g.volume - 1) = g.volume - 1 := wrapInt_eq _ (by omega) (by omega)
  have hu : wrapInt (g.volume + 1) = g.volume + 1 := wrapInt_eq _ (by omega) (by omega)
  cases hup : e.up
  · simp only [adjust, hup, handleDownButton, hp, hm, VolumeInRange, hd, MIN_VOLUME, MAX_VOLUME]
    simp
    split_ifs <;> omega
  · simp only [adjust, hup, handleUpButton, hp, hm, VolumeInRange, hu, MIN_VOLUME, MAX_VOLUME]
    simp
    split_ifs <;> omega

theorem adjust_run_inRange (evs : List VolumeEvent) : ∀ (g : Globals), VolumeInRange g →
    g.isMute = false → (∀ x ∈ evs, x.button.justPressed = true) →
    VolumeInRange (evs.foldl adjust g) ∧ (evs.foldl adjust g).isMute = false := by
  induction evs with
  | nil => intro g hr hm _; exact ⟨hr, hm⟩
  | cons e rest ih =>
    intro g hr hm hp
    simp only [List.foldl_cons]
    have h := adjust_step g e hr hm (hp e (List.mem_cons_self _ _))
    exact ih _ h.1 h.2.1 (fun x hx => hp x (List.mem_cons_of_mem _ hx))

theorem select_run_pending (presses : List lilka.ButtonState) : ∀ g : Globals,
    (presses.foldl handleSelectButton g).pendingSave = g.pendingSave := by
  induction presses with
  | nil => intro g; rfl
  | cons b rest ih =>
    intro g
    simp only [List.foldl_cons]
    rw [ih]
    unfold handleSelectButton
    split <;> rfl

/-! ## Signal strength -/

theorem map_rssi_eq (rssi : Int) (h1 : -429496729 ≤ rssi) (h2 : rssi ≤ 429496729) :
    map rssi 0 45 0 5 = Int.tdiv (rssi * 5) 45 := by
  unfold map
  have e1 : wrapInt (rssi - 0) = rssi := by unfold wrapInt; omega
  have e2 : wrapInt (5 - 0) = 5 := by decide
  have e3 : wrapInt (45 - 0) = 45 := by decide
  rw [e1, e2, e3]
  have e4 : wrapInt (rssi * 5) = rssi * 5 := by unfold wrapInt; omega
  rw [e4]
  have hb : -2147483648 ≤ Int.tdiv (rssi * 5) 45 ∧ Int.tdiv (rssi * 5) 45 < 2147483647 := by
    rcases le_or_lt 0 rssi with h | h
    · rw [Int.tdiv_eq_ediv (by omega) (by omega)]; omega
    · have : rssi * 5 = -(-(rssi * 5)) := by omega
      rw [this, Int.neg_tdiv, Int.tdiv_eq_ediv (by omega) (by omega)]; omega
  unfold wrapInt; omega

theorem tdiv_nonneg_case (a : Int) (h : 0 ≤ a) : Int.tdiv a 45 = a / 45 :=
  Int.tdiv_eq_ediv h (by omega)

theorem tdiv_neg_case (a : Int) (h : a < 0) : Int.tdiv a 45 = -((-a) / 45) := by
  have : a = -(-a) := by omega
  conv_lhs => rw [this]
  rw [Int.neg_tdiv, Int.tdiv_eq_ediv (by omega) (by omega)]

theorem convert_small (rssi : Int) (h1 : -429496729 ≤ rssi) (h2 : rssi ≤ 429496729) :
    convertRssiToSignalStrength rssi =
      if rssi < 0 then 0 else if 45 ≤ rssi then 5 else rssi / 9 := by
  unfold convertRssiToSignalStrength constrain
  simp only [map_rssi_eq rssi h1 h2]
  rcases le_or_lt 0 rssi with h | h
  · rw [tdiv_nonneg_case _ (by omega)]
    split_ifs <;> omega
  · rw [tdiv_neg_case _ (by omega)]
    split_ifs <;> omega

theorem convert_bounds (rssi : Int) :
    0 ≤ convertRssiToSignalStrength rssi ∧ convertRssiToSignalStrength rssi ≤ 5 := by
  unfold convertRssiToSignalStrength constrain
  simp only
  split_ifs <;> omega

/-! ## Settings store -/

theorem load_after_save (g g' : Globals)
    (hflash : g'.settings.flash = (saveSettings g).settings.flash) :
    (loadSettings g').frequency = g.frequency ∧ (loadSettings g').volume = g.volume := by
  simp [loadSettings, saveSettings, Preferences.begin, Preferences.getInt, Preferences.putInt,
    Preferences.finish] at hflash ⊢
  have hne : ((("lilradio", "frequency") : String × String) == ("lilradio", "volume")) = false := by
    decide
  rw [hflash]
  simp [List.lookup, List.filter, hne]

theorem load_absent (g : Globals)
    (hf : g.settings.flash.lookup ("lilradio", "frequency") = none)
    (hv : g.settings.flash.lookup ("lilradio", "volume") = none) :
    (loadSettings g).frequency = g.frequency ∧ (loadSettings g).volume = g.volume := by
  simp [loadSettings, Preferences.begin, Preferences.getInt, Preferences.finish, hf, hv]

/-! ## Range invariant of the loop -/

theorem left_inRange (g : Globals) (b : lilka.ButtonState) (t : Nat) (h : InRange g) :
    InRange (handleLeftButton g b t) := by
  obtain ⟨⟨h1, h2⟩, hv⟩ := h
  simp only [MIN_FREQUENCY, MAX_FREQUENCY] at h1 h2
  have hd : wrapInt (g.frequency - 10) = g.frequency - 10 := wrapInt_eq _ (by omega) (by omega)
  unfold handleLeftButton
  split
  · refine ⟨?_, hv⟩
    simp only [FrequencyInRange, hd, MIN_FREQUENCY, MAX_FREQUENCY]
    split_ifs <;> omega
  · exact ⟨⟨h1, h2⟩, hv⟩

theorem right_inRange (g : Globals) (b : lilka.ButtonState) (t : Nat) (h : InRange g) :
    InRange (handleRightButton g b t) := by
  obtain ⟨⟨h1, h2⟩, hv⟩ := h
  simp only [MIN_FREQUENCY, MAX_FREQUENCY] at h1 h2
  have hd : wrapInt (g.frequency + 10) = g.frequency + 10 := wrapInt_eq _ (by omega) (by omega)
  unfold handleRightButton
  split
  · refine ⟨?_, hv⟩
    simp only [FrequencyInRange, hd, MIN_FREQUENCY, MAX_FREQUENCY]
    split_ifs <;> omega
  · exact ⟨⟨h1, h2⟩, hv⟩

theorem up_inRange (g : Globals) (b : lilka.ButtonState) (t : Nat) (h : InRange g) :
    InRange (handleUpButton g b t) := by
  obtain ⟨hf, h1, h2⟩ := h
  simp only [MIN_VOLUME, MAX_VOLUME] at h1 h2
  have hd : wrapInt (g.volume + 1) = g.volume + 1 := wrapInt_eq _ (by omega) (by omega)
  unfold handleUpButton
  split
  · refine ⟨hf, ?_⟩
    simp only [VolumeInRange, hd, MIN_VOLUME, MAX_VOLUME]
    split_ifs <;> omega
  · exact ⟨hf, h1, h2⟩

theorem down_inRange (g : Globals) (b : lilka.ButtonState) (t : Nat) (h : InRange g) :
    InRange (handleDownButton g b t) := by
  obtain ⟨hf, h1, h2⟩ := h
  simp only [MIN_VOLUME, MAX_VOLUME] at h1 h2
  have hd : wrapInt (g.volume - 1) = g.volume - 1 := wrapInt_eq _ (by omega) (by omega)
  unfold handleDownButton
  split
  · refine ⟨hf, ?_⟩
    simp only [VolumeInRange, hd, MIN_VOLUME, MAX_VOLUME]
    split_ifs <;> omega
  · exact ⟨hf, h1, h2⟩

theorem select_inRange (g : Globals) (b : lilka.ButtonState) (h : InRange g) :
    InRange (handleSelectButton g b) := by
  unfold handleSelectButton; split
  · exact h
  · exact h

theorem a_inRange (g : Globals) (b : lilka.ButtonState) (tuned : Int) (t : Nat) (h : InRange g)
    (hs : b.justPressed = true → MIN_FREQUENCY ≤ tuned ∧ tuned ≤ MAX_FREQUENCY) :
    InRange (handleAButton g b tuned t) := by
  unfold handleAButton; split
  · next hb => exact ⟨hs hb, h.2⟩
  · exact h

theorem d_inRange (g : Globals) (b : lilka.ButtonState) (tuned : Int) (t : Nat) (h : InRange g)
    (hs : b.justPressed = true → MIN_FREQUENCY ≤ tuned ∧ tuned ≤ MAX_FREQUENCY) :
    InRange (handleDButton g b tuned t) := by
  unfold handleDButton; split
  · next hb => exact ⟨hs hb, h.2⟩
  · exact h

theorem info_inRange (g : Globals) (t : Nat) (rssi : Int) (h : InRange g) :
    InRange (handleGetRadioInfo g t rssi) := by
  unfold handleGetRadioInfo
  simp only
  split
  · exact ⟨⟨h.1.1, h.1.2⟩, ⟨h.2.1, h.2.2⟩⟩
  · exact h

theorem loop_inRange (g : Globals) (i : LoopInput) (h : InRange g) (hs : SeekInBand i) :
    InRange (loop g i) := by
  have hb : InRange (handleButtons (handleGetRadioInfo g i.tInfo i.rssi) i) := by
    unfold handleButtons
    exact d_inRange _ _ _ _ (a_inRange _ _ _ _ (select_inRange _ _ (down_inRange _ _ _
      (up_inRange _ _ _ (right_inRange _ _ _ (left_inRange _ _ _ (info_inRange _ _ _ h))))))
      hs.1) hs.2
  unfold loop; simp only; split
  · exact hb
  · exact hb

theorem run_inRange (inputs : List LoopInput) : ∀ (g : Globals), InRange g →
    (∀ i ∈ inputs, SeekInBand i) → InRange (run g inputs) := by
  induction inputs with
  | nil => intro g h _; exact h
  | cons i rest ih =>
    intro g h hs
    simp only [run, List.foldl_cons]
    exact ih _ (loop_inRange g i h (hs i (List.mem_cons_self _ _)))
      (fun x hx => hs x (List.mem_cons_of_mem _ hx))

theorem setup_inRange (flash : List ((String × String) × Int))
    (hf : ∀ f, flash.lookup ("lilradio", "frequency") = some f →
      MIN_FREQUENCY ≤ f ∧ f ≤ MAX_FREQUENCY)
    (hv : ∀ v, flash.lookup ("lilradio", "volume") = some v → MIN_VOLUME ≤ v ∧ v ≤ MAX_VOLUME) :
    InRange (setup (boot flash)) := by
  simp only [setup, initRadioModule, loadSettings, boot, Preferences.begin, Preferences.getInt,
    Preferences.finish, InRange, FrequencyInRange, VolumeInRange, if_true]
  constructor
  · cases h : flash.lookup ("lilradio", "frequency") with
    | none => simp [MIN_FREQUENCY, MAX_FREQUENCY]
    | some f => simpa using hf f h
  · cases h : flash.lookup ("lilradio", "volume") with
    | none => simp [MIN_VOLUME, MAX_VOLUME]
    | some v => simpa using hv v h

/-! ## Telemetry gate -/

theorem telemetry_skip_is_identity (g : Globals) (t : Nat) (rssi : Int)
    (h : ¬ millis t > g.nextGetRadioInfoTime) : handleGetRadioInfo g t rssi = g := by
  simp [handleGetRadioInfo, h]

theorem telemetry_gap_without_wrap (g : Globals) (t1 t2 : Nat) (r1 r2 : Int)
    (h1 : millis t1 > g.nextGetRadioInfoTime)
    (hw : millis t1 + GET_RADIO_INFO_INTERVAL < 4294967296)
    (h2 : (handleGetRadioInfo (handleGetRadioInfo g t1 r1) t2 r2).trace
      ≠ (handleGetRadioInfo g t1 r1).trace) :
    millis t1 + 2000 < millis t2 := by
  by_contra hc
  apply h2
  have hn : (handleGetRadioInfo g t1 r1).nextGetRadioInfoTime = millis t1 + 2000 := by
    simp only [handleGetRadioInfo, h1, if_true, ulongAdd, GET_RADIO_INFO_INTERVAL] at hw ⊢
    omega
  rw [telemetry_skip_is_identity _ t2 r2 (by rw [hn]; omega)]

theorem buttons_keep_telemetry (g : Globals) (i : LoopInput) :
    (loop g i).signalStrength = (handleGetRadioInfo g i.tInfo i.rssi).signalStrength ∧
    (loop g i).nextGetRadioInfoTime = (handleGetRadioInfo g i.tInfo i.rssi).nextGetRadioInfoTime := by
  unfold loop
  simp only
  generalize handleGetRadioInfo g i.tInfo i.rssi = g0
  have hl : ∀ g b t, (handleLeftButton g b t).signalStrength = g.signalStrength ∧
      (handleLeftButton g b t).nextGetRadioInfoTime = g.nextGetRadioInfoTime := by
    intro g b t; unfold handleLeftButton; split <;> exact ⟨rfl, rfl⟩
  have hr : ∀ g b t, (handleRightButton g b t).signalStrength = g.signalStrength ∧
      (handleRightButton g b t).nextGetRadioInfoTime = g.nextGetRadioInfoTime := by
    intro g b t; unfold handleRightButton; split <;> exact ⟨rfl, rfl⟩
  have hu : ∀ g b t, (handleUpButton g b t).signalStrength = g.signalStrength ∧
      (handleUpButton g b t).nextGetRadioInfoTime = g.nextGetRadioInfoTime := by
    intro g b t; unfold handleUpButton; split <;> exact ⟨rfl, rfl⟩
  have hd : ∀ g b t, (handleDownButton g b t).signalStrength = g.signalStrength ∧
      (handleDownButton g b t).nextGetRadioInfoTime = g.nextGetRadioInfoTime := by
    intro g b t; unfold handleDownButton; split <;> exact ⟨rfl, rfl⟩
  have hs : ∀ g b, (handleSelectButton g b).signalStrength = g.signalStrength ∧
      (handleSelectButton g b).nextGetRadioInfoTime = g.nextGetRadioInfoTime := by
    intro g b; unfold handleSelectButton; split <;> exact ⟨rfl, rfl⟩
  have ha : ∀ g b f t, (handleAButton g b f t).signalStrength = g.signalStrength ∧
      (handleAButton g b f t).nextGetRadioInfoTime = g.nextGetRadioInfoTime := by
    intro g b f t; unfold handleAButton; split <;> exact ⟨rfl, rfl⟩
  have hdd : ∀ g b f t, (handleDButton g b f t).signalStrength = g.signalStrength ∧
      (handleDButton g b f t).nextGetRadioInfoTime = g.nextGetRadioInfoTime := by
    intro g b f t; unfold handleDButton; split <;> exact ⟨rfl, rfl⟩
  have hb : (handleButtons g0 i).signalStrength = g0.signalStrength ∧
      (handleButtons g0 i).nextGetRadioInfoTime = g0.nextGetRadioInfoTime := by
    unfold handleButtons
    simp only [hl, hr, hu, hd, hs, ha, hdd, and_self]
  split
  · exact ⟨hb.1, hb.2⟩
  · exact hb

/-! ## Deferred persistence -/

theorem Stamped.refl (g : Globals) : Stamped g g [] :=
  ⟨rfl, rfl, fun _ => ⟨rfl, rfl, rfl, rfl⟩, fun h => absurd rfl h⟩

theorem Stamped.trans {g g' g'' : Globals} {ss ss' : List Nat}
    (h : Stamped g g' ss) (h' : Stamped g' g'' ss') : Stamped g g'' (ss ++ ss') := by
  obtain ⟨a1, a2, a3, a4⟩ := h
  obtain ⟨b1, b2, b3, b4⟩ := h'
  refine ⟨b1.trans a1, b2.trans a2, ?_, ?_⟩
  · intro hnil
    obtain ⟨e1, e2⟩ := List.append_eq_nil.mp hnil
    obtain ⟨p1, p2, p3, p4⟩ := a3 e1
    obtain ⟨q1, q2, q3, q4⟩ := b3 e2
    exact ⟨q1.trans p1, q2.trans p2, q3.trans p3, q4.trans p4⟩
  · intro hne
    by_cases hs' : ss' = []
    · subst hs'
      rw [List.append_nil] at hne ⊢
      obtain ⟨q1, q2, _, _⟩ := b3 rfl
      obtain ⟨p1, p2⟩ := a4 hne
      exact ⟨q1.trans p1, q2.trans p2⟩
    · obtain ⟨q1, q2⟩ := b4 hs'
      refine ⟨q1, ?_⟩
      rw [q2]
      congr 1
      rw [List.getLastD_eq_getLast?, List.getLastD_eq_getLast?, List.getLast?_append_of_ne_nil _ hs']

theorem putCalls_append (a b : List Effect) : putCalls (a ++ b) = putCalls a ++ putCalls b := by
  simp [putCalls, List.filterMap_append]

theorem left_stamped (g : Globals) (b : lilka.ButtonState) (t : Nat) :
    Stamped g (handleLeftButton g b t) (if b.justPressed then [t] else []) := by
  unfold handleLeftButton
  cases b.justPressed
  · exact Stamped.refl g
  · refine ⟨?_, rfl, fun h => by simp at h, fun _ => ⟨rfl, rfl⟩⟩
    simp only [if_true]
    split <;> simp [putCalls_append, putCalls]

theorem right_stamped (g : Globals) (b : lilka.ButtonState) (t : Nat) :
    Stamped g (handleRightButton g b t) (if b.justPressed then [t] else []) := by
  unfold handleRightButton
  cases b.justPressed
  · exact Stamped.refl g
  · refine ⟨?_, rfl, fun h => by simp at h, fun _ => ⟨rfl, rfl⟩⟩
    simp only [if_true]
    split <;> simp [putCalls_append, putCalls]

theorem up_stamped (g : Globals) (b : lilka.ButtonState) (t : Nat) :
    Stamped g (handleUpButton g b t) (if b.justPressed && !g.isMute then [t] else []) := by
  unfold handleUpButton
  cases (b.justPressed && !g.isMute)
  · exact Stamped.refl g
  · refine ⟨?_, rfl, fun h => by simp at h, fun _ => ⟨rfl, rfl⟩⟩
    simp [putCalls_append, putCalls]

theorem down_stamped (g : Globals) (b : lilka.ButtonState) (t : Nat) :
    Stamped g (handleDownButton g b t) (if b.justPressed && !g.isMute then [t] else []) := by
  unfold handleDownButton
  cases (b.justPressed && !g.isMute)
  · exact Stamped.refl g
  · refine ⟨?_, rfl, fun h => by simp at h, fun _ => ⟨rfl, rfl⟩⟩
    simp [putCalls_append, putCalls]

theorem select_stamped (g : Globals) (b : lilka.ButtonState) :
    Stamped g (handleSelectButton g b) [] := by
  unfold handleSelectButton
  cases b.justPressed
  · exact Stamped.refl g
  · refine ⟨?_, rfl, fun _ => ⟨rfl, rfl, rfl, rfl⟩, fun h => absurd rfl h⟩
    simp [putCalls_append, putCalls]

theorem a_stamped (g : Globals) (b : lilka.ButtonState) (tuned : Int) (t : Nat) :
    Stamped g (handleAButton g b tuned t) (if b.justPressed then [t] else []) := by
  unfold handleAButton
  cases b.justPressed
  · exact Stamped.refl g
  · refine ⟨?_, rfl, fun h => by simp at h, fun _ => ⟨rfl, rfl⟩⟩
    simp [putCalls_append, putCalls]

theorem d_stamped (g : Globals) (b : lilka.ButtonState) (tuned : Int) (t : Nat) :
    Stamped g (handleDButton g b tuned t) (if b.justPressed then [t] else []) := by
  unfold handleDButton
  cases b.justPressed
  · exact Stamped.refl g
  · refine ⟨?_, rfl, fun h => by simp at h, fun _ => ⟨rfl, rfl⟩⟩
    simp [putCalls_append, putCalls]

theorem info_stamped (g : Globals) (t : Nat) (rssi : Int) :
    Stamped g (handleGetRadioInfo g t rssi) [] ∧ (handleGetRadioInfo g t rssi).isMute = g.isMute := by
  unfold handleGetRadioInfo
  simp only
  split
  · refine ⟨⟨?_, rfl, fun _ => ⟨rfl, rfl, rfl, rfl⟩, fun h => absurd rfl h⟩, rfl⟩
    simp [putCalls_append, putCalls]
  · exact ⟨Stamped.refl g, rfl⟩

theorem left_isMute (g : Globals) (b : lilka.ButtonState) (t : Nat) :
    (handleLeftButton g b t).isMute = g.isMute := by
  unfold handleLeftButton; split <;> rfl

theorem right_isMute (g : Globals) (b : lilka.ButtonState) (t : Nat) :
    (handleRightButton g b t).isMute = g.isMute := by
  unfold handleRightButton; split <;> rfl

theorem up_isMute (g : Globals) (b : lilka.ButtonState) (t : Nat) :
    (handleUpButton g b t).isMute = g.isMute := by
  unfold handleUpButton; split <;> rfl

theorem buttons_summary (g : Globals) (i : LoopInput) :
    Stamped g (handleButtons (handleGetRadioInfo g i.tInfo i.rssi) i) (stamps g i) := by
  unfold handleButtons
  simp only
  obtain ⟨h0, m0⟩ := info_stamped g i.tInfo i.rssi
  generalize handleGetRadioInfo g i.tInfo i.rssi = g0 at *
  have h1 := left_stamped g0 i.state.left i.tLeft
  have m1 := left_isMute g0 i.state.left i.tLeft
  generalize handleLeftButton g0 i.state.left i.tLeft = g1 at *
  have h2 := right_stamped g1 i.state.right i.tRight
  have m2 := right_isMute g1 i.state.right i.tRight
  generalize handleRightButton g1 i.state.right i.tRight = g2 at *
  have h3 := up_stamped g2 i.state.up i.tUp
  have m3 := up_isMute g2 i.state.up i.tUp
  generalize handleUpButton g2 i.state.up i.tUp = g3 at *
  have h4 := down_stamped g3 i.state.down i.tDown
  generalize handleDownButton g3 i.state.down i.tDown = g4 at *
  have h5 := select_stamped g4 i.state.select
  generalize handleSelectButton g4 i.state.select = g5 at *
  have h6 := a_stamped g5 i.state.a i.tunedA i.tA
  generalize handleAButton g5 i.state.a i.tunedA i.tA = g6 at *
  have h7 := d_stamped g6 i.state.d i.tunedD i.tD
  have e2 : g2.isMute = g.isMute := by rw [m2, m1, m0]
  have e3 : g3.isMute = g.isMute := by rw [m3, e2]
  rw [e2] at h3
  rw [e3] at h4
  have h := (((((((h0.trans h1).trans h2).trans h3).trans h4).trans h5).trans h6).trans h7)
  simpa [stamps] using h

theorem run_cons (g : Globals) (i : LoopInput) (rest : List LoopInput) :
    run g (i :: rest) = run (loop g i) rest := rfl

theorem run_append (a b : List LoopInput) (g : Globals) :
    run g (a ++ b) = run (run g a) b := by
  simp [run, List.foldl_append]

theorem allClocks_append (a b : List LoopInput) :
    allClocks (a ++ b) = allClocks a ++ allClocks b := by
  induction a with
  | nil => rfl
  | cons i rest ih => simp [allClocks, ih]

theorem editStamps_append (a b : List LoopInput) : ∀ g : Globals,
    editStamps g (a ++ b) = editStamps g a ++ editStamps (run g a) b := by
  induction a with
  | nil => intro g; rfl
  | cons i rest ih => intro g; simp [editStamps, ih, run_cons]

theorem stamps_mem_clocks (g : Globals) (i : LoopInput) (t : Nat) (h : t ∈ stamps g i) :
    t ∈ clocks i := by
  simp only [stamps, List.mem_append] at h
  simp only [clocks, List.mem_cons]
  rcases h with ((((h | h) | h) | h) | h) | h <;> split at h <;> simp at h <;> simp [h]

theorem editStamps_mem_allClocks (inputs : List LoopInput) : ∀ (g : Globals) (t : Nat),
    t ∈ editStamps g inputs → t ∈ allClocks inputs := by
  induction inputs with
  | nil => intro g t h; simp [editStamps] at h
  | cons i rest ih =>
    intro g t h
    simp only [editStamps, List.mem_append] at h
    simp only [allClocks, List.mem_append]
    rcases h with h | h
    · exact Or.inl (stamps_mem_clocks g i t h)
    · exact Or.inr (ih _ t h)

theorem tSave_mem_clocks (i : LoopInput) : i.tSave ∈ clocks i := by
  simp [clocks]

theorem clock_le_tSave (i : LoopInput) (hs : (clocks i).Sorted (· ≤ ·)) (t : Nat)
    (h : t ∈ clocks i) : t ≤ i.tSave := by
  simp only [clocks, List.Sorted, List.pairwise_cons, List.mem_cons] at hs h
  simp only [List.mem_singleton, List.not_mem_nil, or_false] at hs h
  rcases h with h | h | h | h | h | h | h | h <;> subst h <;> simp_all

theorem lastStamp_mem (g : Globals) (i : LoopInput) (h : stamps g i ≠ []) :
    lastStamp g i ∈ stamps g i ∧ (stamps g i).getLast? = some (lastStamp g i) := by
  unfold lastStamp
  rw [List.getLastD_eq_getLast?, List.getLast?_eq_getLast _ h]
  exact ⟨List.getLast_mem h, rfl⟩

theorem ulongSub_millis (a b : Nat) (h : b ≤ a) :
    ulongSub (millis a) (millis b) = (a - b) % 4294967296 := by
  unfold ulongSub millis
  omega

theorem loop_not_due (g : Globals) (i : LoopInput)
    (h : saveDue (handleButtons (handleGetRadioInfo g i.tInfo i.rssi) i) i.tSave = false) :
    loop g i = handleButtons (handleGetRadioInfo g i.tInfo i.rssi) i := by
  simp [loop, h]

theorem loop_due (g : Globals) (i : LoopInput)
    (h : saveDue (handleButtons (handleGetRadioInfo g i.tInfo i.rssi) i) i.tSave = true) :
    loop g i = { saveSettings (handleButtons (handleGetRadioInfo g i.tInfo i.rssi) i) with
      pendingSave := false } := by
  simp [loop, h]

theorem saved_facts (g : Globals) :
    putCalls ({ saveSettings g with pendingSave := false } : Globals).trace
      = putCalls g.trace ++ [("frequency", g.frequency), ("volume", g.volume)] ∧
    ({ saveSettings g with pendingSave := false } : Globals).isMute = g.isMute ∧
    ({ saveSettings g with pendingSave := false } : Globals).frequency = g.frequency ∧
    ({ saveSettings g with pendingSave := false } : Globals).volume = g.volume := by
  simp [saveSettings, putCalls_append, putCalls]

theorem idle_tail (tail : List LoopInput) : ∀ g : Globals, g.pendingSave = false →
    editStamps g tail = [] →
    putCalls (run g tail).trace = putCalls g.trace ∧ (run g tail).pendingSave = false := by
  induction tail with
  | nil => intro g hp _; exact ⟨rfl, hp⟩
  | cons i rest ih =>
    intro g hp hq
    simp only [editStamps, List.append_eq_nil] at hq
    obtain ⟨b1, _, b3, _⟩ := buttons_summary g i
    obtain ⟨p1, _, _, _⟩ := b3 hq.1
    have hnd : saveDue (handleButtons (handleGetRadioInfo g i.tInfo i.rssi) i) i.tSave = false := by
      simp [saveDue, p1, hp]
    have hl := loop_not_due g i hnd
    rw [run_cons]
    rw [hl] at hq ⊢
    obtain ⟨r1, r2⟩ := ih _ (p1.trans hp) hq.2
    exact ⟨r1.trans b1, r2⟩

theorem pending_tail (tail : List LoopInput) : ∀ g : Globals, g.pendingSave = true →
    editStamps g tail = [] →
    (∃ i ∈ tail, 3000 < ulongSub (millis i.tSave) g.lastSettingsChangeTime) →
    ∃ before i after, tail = before ++ i :: after ∧
      putCalls (run g before).trace = putCalls g.trace ∧
      putCalls (loop (run g before) i).trace =
        putCalls g.trace ++ [("frequency", g.frequency), ("volume", g.volume)] ∧
      putCalls (run g tail).trace =
        putCalls g.trace ++ [("frequency", g.frequency), ("volume", g.volume)] ∧
      (run g tail).pendingSave = false ∧
      3000 < ulongSub (millis i.tSave) g.lastSettingsChangeTime := by
  induction tail with
  | nil => intro g _ _ h; obtain ⟨i, hi, _⟩ := h; simp at hi
  | cons i rest ih =>
    intro g hp hq hlate
    simp only [editStamps, List.append_eq_nil] at hq
    obtain ⟨b1, _, b3, _⟩ := buttons_summary g i
    obtain ⟨p1, p2, p3, p4⟩ := b3 hq.1
    cases hdue : saveDue (handleButtons (handleGetRadioInfo g i.tInfo i.rssi) i) i.tSave
    · have hl := loop_not_due g i hdue
      rw [hl] at hq
      have hlate' : ∃ j ∈ rest, 3000 < ulongSub (millis j.tSave)
          (handleButtons (handleGetRadioInfo g i.tInfo i.rssi) i).lastSettingsChangeTime := by
        obtain ⟨j, hj, hjl⟩ := hlate
        rcases List.mem_cons.mp hj with h | h
        · subst h
          simp [saveDue, p1, hp, p2, SAVE_SETTINGS_DELAY] at hdue
          omega
        · exact ⟨j, h, by rw [p2]; exact hjl⟩
      obtain ⟨before, j, after, e1, e2, e3, e4, e5, e6⟩ := ih _ (p1.trans hp) hq.2 hlate'
      refine ⟨i :: before, j, after, by rw [e1]; rfl, ?_, ?_, ?_, ?_, ?_⟩
      · rw [run_cons, hl, e2, b1]
      · rw [run_cons, hl, e3, b1, p3, p4]
      · rw [run_cons, hl, e4, b1, p3, p4]
      · rw [run_cons, hl, e5]
      · rw [← p2]; exact e6
    · have hl := loop_due g i hdue
      obtain ⟨s1, _, s3, s4⟩ :=
        saved_facts (handleButtons (handleGetRadioInfo g i.tInfo i.rssi) i)
      rw [← hl] at s1 s3 s4
      have hidle := idle_tail rest (loop g i) (by rw [hl]) hq.2
      refine ⟨[], i, rest, rfl, rfl, ?_, ?_, ?_, ?_⟩
      · show putCalls (loop g i).trace = _
        rw [s1, b1, p3, p4]
      · rw [run_cons, hidle.1, s1, b1, p3, p4]
      · rw [run_cons]; exact hidle.2
      · simp [saveDue, p2, SAVE_SETTINGS_DELAY] at hdue
        exact hdue.2

theorem no_write_before_last_edit (e : LoopInput) (pre : List LoopInput) :
    ∀ (g : Globals) (c : Nat),
    (allClocks (pre ++ [e])).Sorted (· ≤ ·) →
    (editStamps g (pre ++ [e])).Chain' (fun a b => b < a + 3000) →
    (g.pendingSave = true → g.lastSettingsChangeTime = millis c ∧
      (∀ t ∈ allClocks (pre ++ [e]), c ≤ t) ∧
      (∀ f ∈ (editStamps g (pre ++ [e])).head?, f < c + 3000)) →
    stamps (run g pre) e ≠ [] →
    putCalls (run g pre).trace = putCalls g.trace := by
  induction pre with
  | nil => intro g c _ _ _ _; rfl
  | cons i rest ih =>
    intro g c hS hC hP hE
    rw [run_cons] at hE ⊢
    replace hS : (clocks i ++ allClocks (rest ++ [e])).Sorted (· ≤ ·) := hS
    replace hC : (stamps g i ++ editStamps (loop g i) (rest ++ [e])).Chain'
        (fun a b => b < a + 3000) := hC
    replace hP : g.pendingSave = true → g.lastSettingsChangeTime = millis c ∧
        (∀ t ∈ clocks i ++ allClocks (rest ++ [e]), c ≤ t) ∧
        (∀ f ∈ (stamps g i ++ editStamps (loop g i) (rest ++ [e])).head?, f < c + 3000) := hP
    obtain ⟨hSi, hSr, hSir⟩ := List.pairwise_append.mp hS
    obtain ⟨_, hCr, hCir⟩ := List.chain'_append.mp hC
    -- the stamps still to come are not empty: the last edit is among them
    have hB : editStamps (loop g i) (rest ++ [e]) ≠ [] := by
      rw [editStamps_append]
      simp only [editStamps, List.append_nil]
      intro h
      exact hE (List.append_eq_nil.mp h).2
    obtain ⟨f, B, hfB⟩ := List.exists_cons_of_ne_nil hB
    have hfmem : f ∈ allClocks (rest ++ [e]) :=
      editStamps_mem_allClocks _ _ f (by rw [hfB]; exact List.mem_cons_self _ _)
    have hsf : i.tSave ≤ f := hSir _ (tSave_mem_clocks i) _ hfmem
    obtain ⟨b1, _, b3, b4⟩ := buttons_summary g i
    -- the uptime of the stamp the state carries after the handlers
    have key : ∃ c', ((handleButtons (handleGetRadioInfo g i.tInfo i.rssi) i).pendingSave = true →
        (handleButtons (handleGetRadioInfo g i.tInfo i.rssi) i).lastSettingsChangeTime = millis c' ∧
        c' ≤ i.tSave ∧ (∀ t ∈ allClocks (rest ++ [e]), c' ≤ t) ∧ f < c' + 3000) := by
      by_cases hA : stamps g i = []
      · obtain ⟨p1, p2, _, _⟩ := b3 hA
        refine ⟨c, fun hp => ?_⟩
        obtain ⟨q1, q2, q3⟩ := hP (p1 ▸ hp)
        refine ⟨p2.trans q1, q2 _ (List.mem_append_left _ (tSave_mem_clocks i)),
          fun t ht => q2 t (List.mem_append_right _ ht), ?_⟩
        apply q3
        rw [hA, List.nil_append, hfB]
        rfl
      · obtain ⟨_, p2⟩ := b4 hA
        obtain ⟨m1, m2⟩ := lastStamp_mem g i hA
        have hmc := stamps_mem_clocks g i _ m1
        refine ⟨lastStamp g i, fun _ => ⟨p2, clock_le_tSave i hSi _ hmc,
          fun t ht => hSir _ hmc _ ht, ?_⟩⟩
        exact hCir _ m2 f (by rw [hfB]; rfl)
    obtain ⟨c', hc'⟩ := key
    have hnd : saveDue (handleButtons (handleGetRadioInfo g i.tInfo i.rssi) i) i.tSave = false := by
      cases hp : (handleButtons (handleGetRadioInfo g i.tInfo i.rssi) i).pendingSave
      · simp [saveDue, hp]
      · obtain ⟨k1, k2, _, k4⟩ := hc' hp
        simp only [saveDue, hp, k1, ulongSub_millis _ _ k2, SAVE_SETTINGS_DELAY, Bool.true_and,
          decide_eq_false_iff_not, not_lt, gt_iff_lt]
        omega
    have hl := loop_not_due g i hnd
    rw [hl] at hE hCr hfB ⊢
    rw [ih _ c' hSr hCr ?_ hE, b1]
    intro hp
    obtain ⟨k1, _, k3, k4⟩ := hc' hp
    refine ⟨k1, k3, ?_⟩
    intro x hx
    rw [hfB] at hx
    simp only [List.head?_cons, Option.mem_def, Option.some.injEq] at hx
    omega

theorem tSave_mem_allClocks (inputs : List LoopInput) (i : LoopInput) (h : i ∈ inputs) :
    i.tSave ∈ allClocks inputs := by
  induction inputs with
  | nil => simp at h
  | cons j rest ih =>
    simp only [allClocks, List.mem_append]
    rcases List.mem_cons.mp h with h | h
    · subst h; exact Or.inl (tSave_mem_clocks i)
    · exact Or.inr (ih h)

theorem elapsed_real (a b : Nat) (h : b ≤ a) (hl : 3000 < ulongSub (millis a) (millis b)) :
    b + 3000 < a := by
  rw [ulongSub_millis a b h] at hl
  omega

theorem waiting_tail (tail : List LoopInput) : ∀ g : Globals, g.pendingSave = true →
    editStamps g tail = [] →
    (∀ i ∈ tail, ¬ 3000 < ulongSub (millis i.tSave) g.lastSettingsChangeTime) →
    putCalls (run g tail).trace = putCalls g.trace ∧ (run g tail).pendingSave = true := by
  induction tail with
  | nil => intro g hp _ _; exact ⟨rfl, hp⟩
  | cons i rest ih =>
    intro g hp hq hw
    simp only [editStamps, List.append_eq_nil] at hq
    obtain ⟨b1, _, b3, _⟩ := buttons_summary g i
    obtain ⟨p1, p2, _, _⟩ := b3 hq.1
    have hnd : saveDue (handleButtons (handleGetRadioInfo g i.tInfo i.rssi) i) i.tSave = false := by
      have := hw i (List.mem_cons_self _ _)
      simp only [saveDue, p1, hp, p2, SAVE_SETTINGS_DELAY, Bool.true_and, decide_eq_false_iff_not,
        gt_iff_lt]
      exact this
    have hl := loop_not_due g i hnd
    rw [run_cons]
    rw [hl] at hq ⊢
    obtain ⟨r1, r2⟩ := ih _ (p1.trans hp) hq.2
      (fun j hj => by rw [p2]; exact hw j (List.mem_cons_of_mem _ hj))
    exact ⟨r1.trans b1, r2⟩

/-- While no iteration from the last edit on reads `millis()` more than 3000 ms
after the last stamp, nothing is written and the save stays pending. -/
theorem write_waits_for_window (g0 : Globals) (pre : List LoopInput) (e : LoopInput)
    (tail : List LoopInput)
    (hidle : g0.pendingSave = false)
    (hmono : (allClocks (pre ++ [e])).Sorted (· ≤ ·))
    (hgap : (editStamps g0 (pre ++ [e])).Chain' (fun a b => b < a + 3000))
    (hedit : stamps (run g0 pre) e ≠ [])
    (hquiet : editStamps (loop (run g0 pre) e) tail = [])
    (hearly : ∀ i ∈ e :: tail,
      ¬ 3000 < ulongSub (millis i.tSave) (millis (lastStamp (run g0 pre) e))) :
    putCalls (run g0 (pre ++ e :: tail)).trace = putCalls g0.trace ∧
    (run g0 (pre ++ e :: tail)).pendingSave = true := by
  have hA := no_write_before_last_edit e pre g0 0 hmono hgap
    (fun hp => by rw [hidle] at hp; exact absurd hp (by decide)) hedit
  obtain ⟨b1, _, _, b4⟩ := buttons_summary (run g0 pre) e
  obtain ⟨p1, p2⟩ := b4 hedit
  replace p2 :
      (handleButtons (handleGetRadioInfo (run g0 pre) e.tInfo e.rssi) e).lastSettingsChangeTime
        = millis (lastStamp (run g0 pre) e) := p2
  have hnd : saveDue (handleButtons (handleGetRadioInfo (run g0 pre) e.tInfo e.rssi) e) e.tSave
      = false := by
    have := hearly e (List.mem_cons_self _ _)
    simp only [saveDue, p1, p2, SAVE_SETTINGS_DELAY, Bool.true_and, decide_eq_false_iff_not,
      gt_iff_lt]
    exact this
  have hl := loop_not_due (run g0 pre) e hnd
  rw [run_append, run_cons, hl]
  rw [hl] at hquiet
  obtain ⟨r1, r2⟩ := waiting_tail tail _ p1 hquiet
    (fun j hj => by rw [p2]; exact hearly j (List.mem_cons_of_mem _ hj))
  exact ⟨by rw [r1, b1, hA], r2⟩

theorem burst_one_put_pair (g0 : Globals) (pre : List LoopInput) (e : LoopInput)
    (tail : List LoopInput)
    (hidle : g0.pendingSave = false)
    (hmono : (allClocks (pre ++ e :: tail)).Sorted (· ≤ ·))
    (hgap : (editStamps g0 (pre ++ [e])).Chain' (fun a b => b < a + 3000))
    (hedit : stamps (run g0 pre) e ≠ [])
    (hquiet : editStamps (loop (run g0 pre) e) tail = [])
    (hlate : ∃ i ∈ e :: tail,
      3000 < ulongSub (millis i.tSave) (millis (lastStamp (run g0 pre) e))) :
    ∃ before i after, pre ++ e :: tail = before ++ i :: after ∧
      putCalls (run g0 before).trace = putCalls g0.trace ∧
      putCalls (loop (run g0 before) i).trace = putCalls g0.trace ++
        [("frequency", (loop (run g0 pre) e).frequency),
         ("volume", (loop (run g0 pre) e).volume)] ∧
      putCalls (run g0 (pre ++ e :: tail)).trace = putCalls g0.trace ++
        [("frequency", (loop (run g0 pre) e).frequency),
         ("volume", (loop (run g0 pre) e).volume)] ∧
      (run g0 (pre ++ e :: tail)).pendingSave = false ∧
      3000 < ulongSub (millis i.tSave) (millis (lastStamp (run g0 pre) e)) ∧
      lastStamp (run g0 pre) e + 3000 < i.tSave := by
  have hsplit : pre ++ e :: tail = (pre ++ [e]) ++ tail := by simp
  have hS : (allClocks (pre ++ [e]) ++ allClocks tail).Sorted (· ≤ ·) := by
    rw [← allClocks_append, ← hsplit]; exact hmono
  obtain ⟨hS1, _, hS12⟩ := List.pairwise_append.mp hS
  have hSe : (clocks e).Sorted (· ≤ ·) := by
    rw [allClocks_append] at hS1
    have := (List.pairwise_append.mp hS1).2.1
    simpa [allClocks] using this
  have hA := no_write_before_last_edit e pre g0 0 hS1 hgap
    (fun hp => by rw [hidle] at hp; exact absurd hp (by decide)) hedit
  obtain ⟨b1, _, _, b4⟩ := buttons_summary (run g0 pre) e
  obtain ⟨p1, p2⟩ := b4 hedit
  replace p2 :
      (handleButtons (handleGetRadioInfo (run g0 pre) e.tInfo e.rssi) e).lastSettingsChangeTime
        = millis (lastStamp (run g0 pre) e) := p2
  obtain ⟨m1, _⟩ := lastStamp_mem (run g0 pre) e hedit
  have hmc := stamps_mem_clocks _ e _ m1
  have hmall : lastStamp (run g0 pre) e ∈ allClocks (pre ++ [e]) := by
    rw [allClocks_append]
    exact List.mem_append_right _ (by simpa [allClocks] using hmc)
  have hrun : ∀ l, run g0 (pre ++ e :: l) = run (loop (run g0 pre) e) l := by
    intro l; rw [run_append, run_cons]
  cases hdue : saveDue (handleButtons (handleGetRadioInfo (run g0 pre) e.tInfo e.rssi) e) e.tSave
  · have hl := loop_not_due (run g0 pre) e hdue
    rw [hl] at hquiet
    have hlate' : ∃ i ∈ tail, 3000 < ulongSub (millis i.tSave)
        (handleButtons (handleGetRadioInfo (run g0 pre) e.tInfo e.rssi)
          e).lastSettingsChangeTime := by
      obtain ⟨j, hj, hjl⟩ := hlate
      rcases List.mem_cons.mp hj with h | h
      · subst h
        simp only [saveDue, p1, p2, SAVE_SETTINGS_DELAY, Bool.true_and, decide_eq_false_iff_not,
          gt_iff_lt] at hdue
        exact absurd hjl hdue
      · exact ⟨j, h, by rw [p2]; exact hjl⟩
    obtain ⟨before, j, after, e1, e2, e3, e4, e5, e6⟩ :=
      pending_tail tail _ p1 hquiet hlate'
    have hj : j ∈ tail := by rw [e1]; simp
    have hle : lastStamp (run g0 pre) e ≤ j.tSave :=
      hS12 _ hmall _ (tSave_mem_allClocks tail j hj)
    rw [p2] at e6
    refine ⟨pre ++ e :: before, j, after, by rw [e1]; simp, ?_, ?_, ?_, ?_, e6,
      elapsed_real _ _ hle e6⟩
    · rw [hrun, hl, e2, b1, hA]
    · rw [hrun, hl, e3, b1, hA]
    · rw [hrun, hl, e4, b1, hA]
    · rw [hrun, hl, e5]
  · have hl := loop_due (run g0 pre) e hdue
    obtain ⟨s1, _, s3, s4⟩ :=
      saved_facts (handleButtons (handleGetRadioInfo (run g0 pre) e.tInfo e.rssi) e)
    rw [← hl] at s1 s3 s4
    have hidle' := idle_tail tail (loop (run g0 pre) e) (by rw [hl]) hquiet
    have hlt : 3000 < ulongSub (millis e.tSave) (millis (lastStamp (run g0 pre) e)) := by
      simp only [saveDue, p1, p2, SAVE_SETTINGS_DELAY, Bool.true_and, decide_eq_true_eq] at hdue
      exact hdue
    refine ⟨pre, e, tail, rfl, hA, ?_, ?_, ?_, hlt,
      elapsed_real _ _ (clock_le_tSave e hSe _ hmc) hlt⟩
    · rw [s1, b1, hA, s3, s4]
    · rw [hrun, hidle'.1, s1, b1, hA, s3, s4]
    · rw [hrun]; exact hidle'.2

theorem saved_flash (g : Globals) :
    (saveSettings g).settings.flash.lookup ("lilradio", "frequency") = some g.frequency ∧
    (saveSettings g).settings.flash.lookup ("lilradio", "volume") = some g.volume := by
  have hne : ((("lilradio", "frequency") : String × String) == ("lilradio", "volume")) = false := by
    decide
  simp [saveSettings, Preferences.begin, Preferences.putInt, Preferences.finish, List.lookup,
    List.filter, hne]

/-- One iteration either leaves the store and the `putInt` record as they
are, or records the pair of `putInt` calls of one `saveSettings` and leaves the
written values in the store. -/
theorem loop_store_cases (g : Globals) (i : LoopInput) :
    (putCalls (loop g i).trace = putCalls g.trace ∧ (loop g i).settings = g.settings) ∨
    (∃ f v, putCalls (loop g i).trace = putCalls g.trace ++ [("frequency", f), ("volume", v)] ∧
      (loop g i).settings.flash.lookup ("lilradio", "frequency") = some f ∧
      (loop g i).settings.flash.lookup ("lilradio", "volume") = some v) := by
  obtain ⟨b1, b2, _, _⟩ := buttons_summary g i
  cases hdue : saveDue (handleButtons (handleGetRadioInfo g i.tInfo i.rssi) i) i.tSave
  · left
    rw [loop_not_due g i hdue]
    exact ⟨b1, b2⟩
  · right
    obtain ⟨s1, _, _, _⟩ := saved_facts (handleButtons (handleGetRadioInfo g i.tInfo i.rssi) i)
    obtain ⟨f1, f2⟩ := saved_flash (handleButtons (handleGetRadioInfo g i.tInfo i.rssi) i)
    rw [loop_due g i hdue]
    exact ⟨_, _, by rw [s1, b1], f1, f2⟩

/-- A run extends the `putInt` record, and leaves the store untouched when it
adds nothing to the record. -/
theorem run_store_quiet (inputs : List LoopInput) : ∀ g : Globals,
    ∃ added, putCalls (run g inputs).trace = putCalls g.trace ++ added ∧
      (added = [] → (run g inputs).settings = g.settings) := by
  induction inputs with
  | nil => intro g; exact ⟨[], by simp [run], fun _ => rfl⟩
  | cons i rest ih =>
    intro g
    obtain ⟨added, h1, h2⟩ := ih (loop g i)
    rw [run_cons]
    rcases loop_store_cases g i with ⟨c1, c2⟩ | ⟨f, v, c1, _, _⟩
    · exact ⟨added, by rw [h1, c1], fun h => by rw [h2 h, c2]⟩
    · refine ⟨[("frequency", f), ("volume", v)] ++ added, by rw [h1, c1, List.append_assoc], ?_⟩
      intro h
      simp at h

theorem run_store_of_same_puts (inputs : List LoopInput) (g : Globals)
    (h : putCalls (run g inputs).trace = putCalls g.trace) :
    (run g inputs).settings = g.settings := by
  obtain ⟨added, h1, h2⟩ := run_store_quiet inputs g
  apply h2
  rw [h] at h1
  exact List.self_eq_append_right.mp h1

/-! ## The claims -/

/-- C1, as amended: deferred persistence coalesces a burst into one write,
once the debounce window has elapsed.  The run is `pre ++ e :: tail`: it
starts with `pendingSave = false`, every uptime it reads is no earlier than the
one read before, the stamps of the edits up to and including the iteration `e`
are each less than 3000 ms after the previous one, `e` holds the last edit, the
iterations of `tail` hold no edit, and `e` or an iteration of `tail` reads
`millis()` more than 3000 ms after the last stamp.  Then `saveSettings` is
called exactly once, in one iteration `i`: before `i` no `putInt` is recorded
and the store is untouched, `i` records the pair frequency/volume, nothing is
recorded after it; the values written are those that hold after the last
edit, the store holds them under the keys frequency and volume at the end of
the run, `i` reads `millis()` more than 3000 ms after the last stamp, and
`pendingSave` is false at the end. -/
theorem burst_coalesces_into_one_write (g0 : Globals) (pre : List LoopInput) (e : LoopInput)
    (tail : List LoopInput)
    (hidle : g0.pendingSave = false)
    (hmono : (allClocks (pre ++ e :: tail)).Sorted (· ≤ ·))
    (hgap : (editStamps g0 (pre ++ [e])).Chain' (fun a b => b < a + 3000))
    (hedit : stamps (run g0 pre) e ≠ [])
    (hquiet : editStamps (loop (run g0 pre) e) tail = [])
    (hlate : ∃ i ∈ e :: tail,
      3000 < ulongSub (millis i.tSave) (millis (lastStamp (run g0 pre) e))) :
    ∃ before i after, pre ++ e :: tail = before ++ i :: after ∧
      putCalls (run g0 before).trace = putCalls g0.trace ∧
      (run g0 before).settings = g0.settings ∧
      putCalls (loop (run g0 before) i).trace = putCalls g0.trace ++
        [("frequency", (loop (run g0 pre) e).frequency),
         ("volume", (loop (run g0 pre) e).volume)] ∧
      putCalls (run g0 (pre ++ e :: tail)).trace = putCalls g0.trace ++
        [("frequency", (loop (run g0 pre) e).frequency),
         ("volume", (loop (run g0 pre) e).volume)] ∧
      (run g0 (pre ++ e :: tail)).settings = (loop (run g0 before) i).settings ∧
      (run g0 (pre ++ e :: tail)).settings.flash.lookup ("lilradio", "frequency")
        = some (loop (run g0 pre) e).frequency ∧
      (run g0 (pre ++ e :: tail)).settings.flash.lookup ("lilradio", "volume")
        = some (loop (run g0 pre) e).volume ∧
      (run g0 (pre ++ e :: tail)).pendingSave = false ∧
      3000 < ulongSub (millis i.tSave) (millis (lastStamp (run g0 pre) e)) ∧
      lastStamp (run g0 pre) e + 3000 < i.tSave := by
  obtain ⟨before, i, after, e1, e2, e3, e4, e5, e6, e7⟩ :=
    burst_one_put_pair g0 pre e tail hidle hmono hgap hedit hquiet hlate
  have hb := run_store_of_same_puts before g0 e2
  have hfin : run g0 (pre ++ e :: tail) = run (loop (run g0 before) i) after := by
    rw [e1, run_append, run_cons]
  have ha : (run g0 (pre ++ e :: tail)).settings = (loop (run g0 before) i).settings := by
    rw [hfin]
    apply run_store_of_same_puts
    rw [← hfin, e4, e3]
  refine ⟨before, i, after, e1, e2, hb, e3, e4, ha, ?_, ?_, e5, e6, e7⟩
  · rcases loop_store_cases (run g0 before) i with ⟨c1, _⟩ | ⟨f, v, c1, c2, _⟩
    · rw [c1, e2] at e3
      have := List.self_eq_append_right.mp e3
      simp at this
    · rw [c1, e2] at e3
      have h := List.append_cancel_left e3
      simp only [List.cons.injEq, Prod.mk.injEq, true_and, and_true] at h
      rw [ha, c2, h.1]
  · rcases loop_store_cases (run g0 before) i with ⟨c1, _⟩ | ⟨f, v, c1, _, c3⟩
    · rw [c1, e2] at e3
      have := List.self_eq_append_right.mp e3
      simp at this
    · rw [c1, e2] at e3
      have h := List.append_cancel_left e3
      simp only [List.cons.injEq, Prod.mk.injEq, true_and, and_true] at h
      rw [ha, c3, h.2]

/-- Witness for the amended C1: from the boot state over an empty store, a
tune-up at 1000 ms and a volume-up at 2500 ms, then idle iterations at 4000 ms
and 6000 ms; the one write carries frequency 10010 and volume 2, and the store
holds them at the end. -/
theorem burst_coalesces_into_one_write_witness :
    ∃ before i after,
      [inputAt { idleState with right := pressedEdge } 1000 20 0,
        inputAt { idleState with up := pressedEdge } 2500 20 0,
        inputAt idleState 4000 20 0, inputAt idleState 6000 20 0] = before ++ i :: after ∧
      putCalls (loop (run (boot []) before) i).trace = [("frequency", 10010), ("volume", 2)] ∧
      (run (boot []) [inputAt { idleState with right := pressedEdge } 1000 20 0,
        inputAt { idleState with up := pressedEdge } 2500 20 0,
        inputAt idleState 4000 20 0, inputAt idleState 6000 20 0]).settings.flash.lookup
          ("lilradio", "frequency") = some 10010 :=
  have h := burst_coalesces_into_one_write (boot [])
    [inputAt { idleState with right := pressedEdge } 1000 20 0]
    (inputAt { idleState with up := pressedEdge } 2500 20 0)
    [inputAt idleState 4000 20 0, inputAt idleState 6000 20 0]
    (by decide) (by decide)
    (by
      have hs : editStamps (boot []) ([inputAt { idleState with right := pressedEdge } 1000 20 0]
          ++ [inputAt { idleState with up := pressedEdge } 2500 20 0]) = [1000, 2500] := by
        decide
      rw [hs]
      simp)
    (by decide) (by decide)
    ⟨inputAt idleState 6000 20 0, by decide, by decide⟩
  match h with
  | ⟨before, i, after, h1, _, _, h3, _, _, h6, _⟩ => ⟨before, i, after, h1, h3, h6⟩

/-- Counterexample to C1 as stated: from the boot state over an empty store, a
run with one edit (a tune-up stamped at 1000 ms) followed by edit-free
iterations at 2000, 3999 and 4000 ms.  It starts with `pendingSave = false`,
holds a burst of one edit and an edit-free tail, and yet `saveSettings` is not
called at all: no `putInt` is recorded, the store is still empty and
`pendingSave` is still true. -/
theorem short_run_writes_nothing :
    (boot []).pendingSave = false ∧
    editStamps (boot []) [inputAt { idleState with right := pressedEdge } 1000 20 0] = [1000] ∧
    editStamps (loop (boot []) (inputAt { idleState with right := pressedEdge } 1000 20 0))
      [inputAt idleState 2000 20 0, inputAt idleState 3999 20 0, inputAt idleState 4000 20 0]
      = [] ∧
    putCalls (run (boot []) [inputAt { idleState with right := pressedEdge } 1000 20 0,
      inputAt idleState 2000 20 0, inputAt idleState 3999 20 0,
      inputAt idleState 4000 20 0]).trace = [] ∧
    (run (boot []) [inputAt { idleState with right := pressedEdge } 1000 20 0,
      inputAt idleState 2000 20 0, inputAt idleState 3999 20 0,
      inputAt idleState 4000 20 0]).settings.flash = [] ∧
    (run (boot []) [inputAt { idleState with right := pressedEdge } 1000 20 0,
      inputAt idleState 2000 20 0, inputAt idleState 3999 20 0,
      inputAt idleState 4000 20 0]).pendingSave = true := by
  decide

/-- C2: from a frequency within [8750, 10800], after any finite sequence of
`justPressed` tune-down and tune-up events followed by one more such event,
the frequency is within [8750, 10800]; the event moved it by exactly 10 (down:
minus 10, up: plus 10), or to the bound 8750 or 10800 when the move would
leave the range. -/
theorem tuning_stays_in_band (g : Globals) (evs : List TuneEvent) (e : TuneEvent)
    (hr : MIN_FREQUENCY ≤ g.frequency ∧ g.frequency ≤ MAX_FREQUENCY)
    (hp : ∀ x ∈ evs ++ [e], x.button.justPressed = true) :
    8750 ≤ (tune (evs.foldl tune g) e).frequency ∧
    (tune (evs.foldl tune g) e).frequency ≤ 10800 ∧
    (e.up = false → (tune (evs.foldl tune g) e).frequency =
      if (evs.foldl tune g).frequency - 10 < 8750 then 8750
      else (evs.foldl tune g).frequency - 10) ∧
    (e.up = true → (tune (evs.foldl tune g) e).frequency =
      if (evs.foldl tune g).frequency + 10 > 10800 then 10800
      else (evs.foldl tune g).frequency + 10) := by
  have hpre := tune_run_inRange evs g hr (fun x hx => hp x (List.mem_append_left _ hx))
  have hstep := tune_step (evs.foldl tune g) e hpre (hp e (by simp))
  exact ⟨hstep.1.1, hstep.1.2, hstep.2.1, hstep.2.2⟩

/-- Witness for C2: from the default 10000, a tune-down, a tune-up and one more
tune-up. -/
theorem tuning_stays_in_band_witness :
    (MIN_FREQUENCY ≤ (boot []).frequency ∧ (boot []).frequency ≤ MAX_FREQUENCY) ∧
    8750 ≤ (tune ([⟨false, pressedEdge, 5⟩, ⟨true, pressedEdge, 9⟩].foldl tune (boot []))
      ⟨true, pressedEdge, 12⟩).frequency :=
  ⟨by decide, (tuning_stays_in_band (boot []) [⟨false, pressedEdge, 5⟩, ⟨true, pressedEdge, 9⟩]
    ⟨true, pressedEdge, 12⟩ (by decide) (by decide)).1⟩

/-- C3: from a volume within [1, 15] and `isMute = false`, after any finite
sequence of `justPressed` volume-up and volume-down events followed by one
more such event, the volume is within [1, 15]; up yields
`min (volume + 1) 15` and down yields `max (volume - 1) 1`. -/
theorem volume_stays_in_range (g : Globals) (evs : List VolumeEvent) (e : VolumeEvent)
    (hr : MIN_VOLUME ≤ g.volume ∧ g.volume ≤ MAX_VOLUME) (hm : g.isMute = false)
    (hp : ∀ x ∈ evs ++ [e], x.button.justPressed = true) :
    1 ≤ (adjust (evs.foldl adjust g) e).volume ∧
    (adjust (evs.foldl adjust g) e).volume ≤ 15 ∧
    (e.up = true → (adjust (evs.foldl adjust g) e).volume =
      min ((evs.foldl adjust g).volume + 1) 15) ∧
    (e.up = false → (adjust (evs.foldl adjust g) e).volume =
      max ((evs.foldl adjust g).volume - 1) 1) := by
  have hpre := adjust_run_inRange evs g hr hm (fun x hx => hp x (List.mem_append_left _ hx))
  have hstep := adjust_step (evs.foldl adjust g) e hpre.1 hpre.2 (hp e (by simp))
  exact ⟨hstep.1.1, hstep.1.2, hstep.2.2.1, hstep.2.2.2⟩

/-- Witness for C3: from the default volume 1, a volume-down (stays 1) and two
volume-ups. -/
theorem volume_stays_in_range_witness :
    (boot []).isMute = false ∧
    (adjust ([⟨false, pressedEdge, 5⟩, ⟨true, pressedEdge, 9⟩].foldl adjust (boot []))
      ⟨true, pressedEdge, 12⟩).volume ≤ 15 :=
  ⟨by decide, (volume_stays_in_range (boot [])
    [⟨false, pressedEdge, 5⟩, ⟨true, pressedEdge, 9⟩] ⟨true, pressedEdge, 12⟩
    (by decide) (by decide) (by decide)).2.1⟩

/-- C4: while muted, none of the seven handlers changes the volume, whatever
button state it is passed; `handleUpButton` and `handleDownButton` with
`justPressed` while muted return the state unchanged in every field. -/
theorem muted_volume_frame (g : Globals) (button : lilka.ButtonState) (clock : Nat)
    (tuned : Int) (hm : g.isMute = true) :
    (handleLeftButton g button clock).volume = g.volume ∧
    (handleRightButton g button clock).volume = g.volume ∧
    (handleUpButton g button clock).volume = g.volume ∧
    (handleDownButton g button clock).volume = g.volume ∧
    (handleSelectButton g button).volume = g.volume ∧
    (handleAButton g button tuned clock).volume = g.volume ∧
    (handleDButton g button tuned clock).volume = g.volume ∧
    (button.justPressed = true →
      handleUpButton g button clock = g ∧ handleDownButton g button clock = g) := by
  refine ⟨?_, ?_, ?_, ?_, ?_, ?_, ?_, ?_⟩
  · unfold handleLeftButton; split <;> rfl
  · unfold handleRightButton; split <;> rfl
  · simp [handleUpButton, hm]
  · simp [handleDownButton, hm]
  · unfold handleSelectButton; split <;> rfl
  · unfold handleAButton; split <;> rfl
  · unfold handleDButton; split <;> rfl
  · intro _; simp [handleUpButton, handleDownButton, hm]

/-- Witness for C4: the boot state with the mute flag set, a `justPressed`
up button. -/
theorem muted_volume_frame_witness :
    ({ boot [] with isMute := true } : Globals).isMute = true ∧
    handleUpButton { boot [] with isMute := true } pressedEdge 700
      = { boot [] with isMute := true } :=
  ⟨rfl, ((muted_volume_frame { boot [] with isMute := true } pressedEdge 700 9000 rfl).2.2.2.2.2.2.2
    rfl).1⟩

/-- C5: `handleSelectButton` with `justPressed` flips `isMute` and leaves
volume, frequency, `pendingSave` and `lastSettingsChangeTime` unchanged; a
state with `pendingSave = false` still has `pendingSave = false` after any
list of button states passed to `handleSelectButton`. -/
theorem mute_toggle_frame (g : Globals) (button : lilka.ButtonState)
    (presses : List lilka.ButtonState) (hp : button.justPressed = true) :
    (handleSelectButton g button).isMute = (!g.isMute) ∧
    (handleSelectButton g button).volume = g.volume ∧
    (handleSelectButton g button).frequency = g.frequency ∧
    (handleSelectButton g button).pendingSave = g.pendingSave ∧
    (handleSelectButton g button).lastSettingsChangeTime = g.lastSettingsChangeTime ∧
    (g.pendingSave = false → (presses.foldl handleSelectButton g).pendingSave = false) := by
  refine ⟨?_, ?_, ?_, ?_, ?_, ?_⟩
  · simp [handleSelectButton, hp]
  · simp [handleSelectButton, hp]
  · simp [handleSelectButton, hp]
  · simp [handleSelectButton, hp]
  · simp [handleSelectButton, hp]
  · intro h
    rw [select_run_pending]; exact h

/-- Witness for C5: three mute toggles from the boot state. -/
theorem mute_toggle_frame_witness :
    (handleSelectButton (boot []) pressedEdge).isMute = true ∧
    ([pressedEdge, pressedEdge, pressedEdge].foldl handleSelectButton (boot [])).pendingSave
      = false :=
  ⟨(mute_toggle_frame (boot []) pressedEdge [] rfl).1,
    (mute_toggle_frame (boot []) pressedEdge [pressedEdge, pressedEdge, pressedEdge]
      rfl).2.2.2.2.2 rfl⟩

/-- C6, as amended: when the integers stored under the keys frequency and
volume are within [8750, 10800] and [1, 15] (or absent), and every frequency
the tuner reports after a seek is within [8750, 10800], then after `setup` and
any sequence of loop iterations the frequency is within [8750, 10800] and the
volume within [1, 15]. -/
theorem ranges_hold_when_inputs_in_range (flash : List ((String × String) × Int))
    (inputs : List LoopInput)
    (hf : ∀ f, flash.lookup ("lilradio", "frequency") = some f →
      MIN_FREQUENCY ≤ f ∧ f ≤ MAX_FREQUENCY)
    (hv : ∀ v, flash.lookup ("lilradio", "volume") = some v → MIN_VOLUME ≤ v ∧ v ≤ MAX_VOLUME)
    (hs : ∀ i ∈ inputs, SeekInBand i) :
    8750 ≤ (run (setup (boot flash)) inputs).frequency ∧
    (run (setup (boot flash)) inputs).frequency ≤ 10800 ∧
    1 ≤ (run (setup (boot flash)) inputs).volume ∧
    (run (setup (boot flash)) inputs).volume ≤ 15 := by
  have h := run_inRange inputs _ (setup_inRange flash hf hv) hs
  exact ⟨h.1.1, h.1.2, h.2.1, h.2.2⟩

/-- Witness for the amended C6: stored settings (9760, 7), then a seek down
that lands on 9920 and a volume-down. -/
theorem ranges_hold_when_inputs_in_range_witness :
    (run (setup (boot [(("lilradio", "frequency"), 9760), (("lilradio", "volume"), 7)]))
      [inputAt { idleState with d := pressedEdge } 1000 20 9920,
       inputAt { idleState with down := pressedEdge } 1500 20 0]).frequency ≤ 10800 :=
  (ranges_hold_when_inputs_in_range
    [(("lilradio", "frequency"), 9760), (("lilradio", "volume"), 7)]
    [inputAt { idleState with d := pressedEdge } 1000 20 9920,
     inputAt { idleState with down := pressedEdge } 1500 20 0]
    (by intro f h; simp [List.lookup] at h; subst h; decide)
    (by
      intro v h
      have hne : ((("lilradio", "volume") : String × String) == ("lilradio", "frequency"))
          = false := by decide
      simp [List.lookup, hne] at h
      subst h
      decide)
    (by
      intro i hi
      simp only [List.mem_cons, List.mem_singleton, List.not_mem_nil, or_false] at hi
      rcases hi with h | h <;> subst h <;> decide)).2.1

/-- Counterexample to C6 as stated: `setup` over a store holding frequency
50000 and volume 0 keeps both values, and a seek down for which the tuner
reports 8700 leaves the frequency at 8700. -/
theorem out_of_range_values_kept :
    (setup (boot [(("lilradio", "frequency"), 50000), (("lilradio", "volume"), 0)])).frequency
      = 50000 ∧
    (setup (boot [(("lilradio", "frequency"), 50000), (("lilradio", "volume"), 0)])).volume = 0 ∧
    (loop (setup (boot [])) (inputAt { idleState with d := pressedEdge } 1000 20 8700)).frequency
      = 8700 := by
  decide

/-- C7, as amended: for every raw value in 0..45, `convertRssiToSignalStrength`
returns the floor of `raw * 5 / 45` (the integer quotient `raw * 5 / 45`),
not the nearest integer. -/
theorem signal_strength_is_floor (raw : Int) (h0 : 0 ≤ raw) (h45 : raw ≤ 45) :
    convertRssiToSignalStrength raw = ⌊(raw * 5 : ℚ) / 45⌋ ∧
    convertRssiToSignalStrength raw = raw * 5 / 45 := by
  have hc := convert_small raw (by omega) (by omega)
  have hq : ⌊(raw * 5 : ℚ) / 45⌋ = raw * 5 / 45 := by
    have := Rat.floor_intCast_div_natCast (raw * 5) 45
    push_cast at this
    exact this
  rw [hq, hc]
  refine ⟨?_, ?_⟩ <;> split_ifs <;> omega

/-- Witness for the amended C7 at raw value 44. -/
theorem signal_strength_is_floor_witness :
    (0 : Int) ≤ 44 ∧ convertRssiToSignalStrength 44 = 44 * 5 / 45 :=
  ⟨by decide, (signal_strength_is_floor 44 (by decide) (by decide)).2⟩

/-- Counterexample to C7 as stated: at raw value 5 the code returns 0, while
`round(5 * 5 / 45)` clamped to [0, 5] is 1. -/
theorem signal_strength_not_rounded :
    convertRssiToSignalStrength 5 = 0 ∧ specSignalStrength 5 = 1 := by
  refine ⟨by decide, ?_⟩
  simp [specSignalStrength, round_eq]; norm_num

/-- C8, as amended: `convertRssiToSignalStrength` returns 0 for 0 and 5 for 45,
its result is within [0, 5] for every input, and it is monotonic
non-decreasing over the inputs from -429496729 to 429496729, for which
`rssi * 5` fits the 32-bit `long` of `map`. -/
theorem signal_strength_monotone_in_range (a b : Int)
    (ha : -429496729 ≤ a) (hab : a ≤ b) (hb : b ≤ 429496729) (c : Int) :
    convertRssiToSignalStrength 0 = 0 ∧ convertRssiToSignalStrength 45 = 5 ∧
    convertRssiToSignalStrength a ≤ convertRssiToSignalStrength b ∧
    0 ≤ convertRssiToSignalStrength c ∧ convertRssiToSignalStrength c ≤ 5 := by
  refine ⟨by decide, by decide, ?_, (convert_bounds c).1, (convert_bounds c).2⟩
  rw [convert_small a (by omega) (by omega), convert_small b (by omega) (by omega)]
  split_ifs <;> omega

/-- Witness for the amended C8: inputs -3 and 200, and the bound at 1000000000. -/
theorem signal_strength_monotone_in_range_witness :
    convertRssiToSignalStrength (-3) ≤ convertRssiToSignalStrength 200 ∧
    convertRssiToSignalStrength 1000000000 ≤ 5 :=
  ⟨(signal_strength_monotone_in_range (-3) 200 (by decide) (by decide) (by decide)
      1000000000).2.2.1,
   (signal_strength_monotone_in_range (-3) 200 (by decide) (by decide) (by decide)
      1000000000).2.2.2.2⟩

/-- Counterexample to C8 as stated: 45 is below 429496730, yet the result for
45 is 5 and the result for 429496730 is 0, because `429496730 * 5` exceeds the
largest 32-bit `long` and wraps to a negative number. -/
theorem signal_strength_not_monotone :
    (45 : Int) ≤ 429496730 ∧ convertRssiToSignalStrength 45 = 5 ∧
    convertRssiToSignalStrength 429496730 = 0 := by
  decide

/-- C9, at the failing input: from the boot state, two idle iterations whose
`millis()` readings are 4294966296 and 4294966297 both sample the tuner, 1 ms
apart, because the first sample sets `nextGetRadioInfoTime` to
`4294966296 + 2000` modulo `2^32`, which is 1000. -/
theorem telemetry_sampled_twice_across_wrap :
    (loop (boot []) (inputAt idleState 4294966296 20 0)).trace = [Effect.getRadioInfo] ∧
    (loop (boot []) (inputAt idleState 4294966296 20 0)).nextGetRadioInfoTime = 1000 ∧
    (loop (loop (boot []) (inputAt idleState 4294966296 20 0))
      (inputAt idleState 4294966297 20 0)).trace = [Effect.getRadioInfo, Effect.getRadioInfo] ∧
    millis 4294966296 ≤ millis 4294966297 ∧ millis 4294966297 - millis 4294966296 = 1 := by
  decide

/-- C10: settings round trip.  `loadSettings`, run from any in-memory state
`g'` whose store holds what `saveSettings` left from a state `g`, yields the
frequency and volume of `g`; `loadSettings` on a state whose store holds
neither key leaves frequency and volume as they are in memory. -/
theorem settings_round_trip (g g' g'' : Globals)
    (hflash : g'.settings.flash = (saveSettings g).settings.flash)
    (hf : g''.settings.flash.lookup ("lilradio", "frequency") = none)
    (hv : g''.settings.flash.lookup ("lilradio", "volume") = none) :
    (loadSettings g').frequency = g.frequency ∧ (loadSettings g').volume = g.volume ∧
    (loadSettings g'').frequency = g''.frequency ∧ (loadSettings g'').volume = g''.volume :=
  ⟨(load_after_save g g' hflash).1, (load_after_save g g' hflash).2,
    (load_absent g'' hf hv).1, (load_absent g'' hf hv).2⟩

/-- Witness for C10: saving (9760, 7) and restarting with the defaults
10000 and 1 loads 9760 and 7; a restart over an empty store keeps 10000 and 1. -/
theorem settings_round_trip_witness :
    (loadSettings (boot (saveSettings tuned9760).settings.flash)).frequency = 9760 ∧
    (loadSettings (boot (saveSettings tuned9760).settings.flash)).volume = 7 ∧
    (loadSettings (boot [])).frequency = 10000 ∧ (loadSettings (boot [])).volume = 1 :=
  settings_round_trip tuned9760 (boot (saveSettings tuned9760).settings.flash) (boot [])
    rfl rfl rfl

end LilRadio
